import Mathlib

/-!
Formal model of the `pc-simulation` Python layer of the traffic-lights
simulator (`optimize_timings.py`, `run_simulation.py`): the scenario
generator, the cost model, the grid-search optimizer, the
protocol-driving session loop and the process shutdown paths.

Modelling conventions.  Python floats are rationals, Python ints are
naturals.  The standard-library generator (`random`, a seeded Mersenne
Twister) is modelled abstractly by a family of deterministic draw
streams indexed by the seed (parameter `mt` below); `random.random()`
consumes one draw, `random.choice` consumes one draw and selects by
index.  The global generator state is threaded explicitly in and out of
the scenario generator so that reseeding (`random.seed`) is visible.
The external engine process is abstracted to its response behaviour at
the protocol boundary.
-/

/-- The four roads; `ROADS = ["north", "east", "south", "west"]`. -/
inductive Road
  | north
  | east
  | south
  | west
deriving DecidableEq

/-- Source constant `ROADS` (the fixed iteration order). -/
def ROADS : List Road := [Road.north, Road.east, Road.south, Road.west]

/-- First letter of a road's name, as used by `f"v_{start[0]}_{count}"`. -/
def roadLetter : Road → Char
  | Road.north => 'n'
  | Road.east => 'e'
  | Road.south => 's'
  | Road.west => 'w'

/-- Source constant `SEED = 42`. -/
def SEED : ℕ := 42

/-- `get_left_turn_target(start)`: `ROADS[(ROADS.index(start) + 1) % 4]`. -/
def get_left_turn_target (start : Road) : Road :=
  ROADS.get ⟨(ROADS.indexOf start + 1) % 4, Nat.mod_lt _ (by decide)⟩

/-- Abstract model of the seeded standard-library generator: `mt seed` is
the stream of uniform draws produced after `random.seed(seed)`. -/
abbrev MT : Type := ℕ → ℕ → ℚ

/-- A generator state: the draw stream of the current seeding and the
position of the next unconsumed draw. -/
structure RNG where
  stream : ℕ → ℚ
  pos : ℕ

/-- `random.random()`: consume one draw. -/
def RNG.next (g : RNG) : ℚ × RNG :=
  (g.stream g.pos, ⟨g.stream, g.pos + 1⟩)

/-- `random.seed(s)`: replace the global generator state wholesale. -/
def seedRNG (mt : MT) (s : ℕ) : RNG :=
  ⟨mt s, 0⟩

/-- Index selected by `random.choice` on a list of length `n`, given one
uniform draw `r` mapped into `[0, n)`. -/
def chooseIdx (r : ℚ) (n : ℕ) : ℕ :=
  (Rat.floor (r * n)).toNat % n

/-- `Scenario` dataclass: name, step count, per-(step, road) arrival
probability, left-turn bias.  `prob_func` is modelled as always callable
(every scenario in the source passes a lambda). -/
structure Scenario where
  name : String
  steps : ℕ
  prob_func : ℕ → Road → ℚ
  left_bias : ℚ

/-- Payload of an `addVehicle` command. -/
structure AddVehicleData where
  vehicleId : String
  startRoad : Road
  endRoad : Road
deriving DecidableEq

/-- A generated command: `{"type": "addVehicle", ...}` or `{"type": "step"}`. -/
inductive Command
  | addVehicle (v : AddVehicleData)
  | step
deriving DecidableEq

/-- Recognizer for `step` commands. -/
def isStepCmd : Command → Bool
  | Command.step => true
  | Command.addVehicle _ => false

/-- The `addVehicle` records of a command list, in order. -/
def vehCmds (cmds : List Command) : List AddVehicleData :=
  cmds.filterMap fun c =>
    match c with
    | Command.addVehicle v => some v
    | Command.step => none

/-- Decimal digit recursion on an explicit fuel bound (any fuel above the
value itself is enough; see `charsVal_natToCharsAux`). -/
def natToCharsAux : ℕ → ℕ → List Char
  | 0, _ => []
  | f + 1, n =>
    if n < 10 then [Nat.digitChar n]
    else natToCharsAux f (n / 10) ++ [Nat.digitChar (n % 10)]

/-- Decimal digits of `n`, most significant first (Python `f"{n}"`). -/
def natToChars (n : ℕ) : List Char :=
  natToCharsAux (n + 1) n

/-- The vehicle id `f"v_{start[0]}_{count}"`. -/
def mkVehicleId (start : Road) (count : ℕ) : String :=
  ⟨'v' :: '_' :: roadLetter start :: '_' :: natToChars count⟩

/-- Value of a decimal digit character. -/
def charVal (c : Char) : ℕ := c.toNat - 48

/-- Decimal value of a digit string (left fold). -/
def charsVal (l : List Char) : ℕ := l.foldl (fun a c => 10 * a + charVal c) 0

/-- Loop state of `create_command_list`: the accumulated command list, the
single global vehicle counter, and the generator state. -/
structure GenState where
  commands : List Command
  count : ℕ
  rng : RNG

/-- Body of the inner road loop of `create_command_list`: one arrival draw;
on arrival, bump the (global) counter, one destination draw, and append one
`addVehicle` command. -/
def genRoad (sc : Scenario) (s : ℕ) (st : GenState) (start : Road) : GenState :=
  let prob := sc.prob_func s start
  let d1 := st.rng.next
  if d1.1 < prob then
    let count' := st.count + 1
    let d2 := d1.2.next
    if d2.1 < sc.left_bias then
      { commands := st.commands ++
          [Command.addVehicle ⟨mkVehicleId start count', start, get_left_turn_target start⟩],
        count := count', rng := d2.2 }
    else
      let possible_targets := ROADS.filter fun r =>
        r != start && r != get_left_turn_target start
      let d3 := d2.2.next
      let endRoad := possible_targets.getD (chooseIdx d3.1 possible_targets.length) Road.north
      { commands := st.commands ++
          [Command.addVehicle ⟨mkVehicleId start count', start, endRoad⟩],
        count := count', rng := d3.2 }
  else
    { st with rng := d1.2 }

/-- One iteration of the outer step loop: the four-road loop followed by
exactly one `step` command. -/
def genStep (sc : Scenario) (s : ℕ) (st : GenState) : GenState :=
  let st' := ROADS.foldl (genRoad sc s) st
  { st' with commands := st'.commands ++ [Command.step] }

/-- `create_command_list(scenario, seed)`.  `g0` is the ambient global
generator state at call time; the function reseeds on entry (lines
109-112), which is why its output does not depend on `g0`; the post-call
global state is returned alongside the result dict. -/
def create_command_list (mt : MT) (sc : Scenario) (seed : Option ℕ) (g0 : RNG) :
    (List Command × String) × RNG :=
  let g := seedRNG mt (match seed with | some s => s | none => SEED)
  let final := (List.range sc.steps).foldl (fun st s => genStep sc s st) ⟨[], 0, g⟩
  ((final.commands, sc.name), final.rng)

/-- The per-road-counter id scheme asserted by the spec: the n-th vehicle
originating from road `r` would carry id `v_{r[0]}_{n}`, with a separate
counter per road.  (Stated from the spec's words, to be compared with the
source's single global counter.) -/
def perRoadCheck : List Command → (Road → ℕ) → Bool
  | [], _ => true
  | Command.step :: rest, cnt => perRoadCheck rest cnt
  | Command.addVehicle v :: rest, cnt =>
    let k := cnt v.startRoad + 1
    (v.vehicleId == mkVehicleId v.startRoad k) &&
      perRoadCheck rest (fun r => if r = v.startRoad then k else cnt r)

/-- `TimingParams` dataclass (defaults `yellow=2`, `all_red=3`,
`ext_threshold=3`, `max_ext=10`, `skip_limit=2`). -/
structure TimingParams where
  green_st : ℕ
  green_lt : ℕ
  yellow : ℕ
  all_red : ℕ
  ext_threshold : ℕ
  max_ext : ℕ
  skip_limit : ℕ
deriving DecidableEq

/-- `ScenarioMetrics` dataclass. -/
structure ScenarioMetrics where
  avg_wait : ℚ
  max_wait : ℚ
  throughput : ℕ
  left_wait : ℚ
deriving DecidableEq

/-- `ScenarioMetrics.cost(awt, max, left, norm_avg, norm_max, norm_left)`.
A `none` baseline is Python's `None`; with all three baselines present each
term is `min(1.0, x / norm) if norm > 0 else 0`, otherwise the raw weighted
sum is returned.  The Python parameters `max` and `left` are renamed `mx`
and `lf` (both shadow Lean builtins). -/
def ScenarioMetrics.cost (m : ScenarioMetrics) (awt mx lf : ℚ)
    (norm_avg norm_max norm_left : Option ℚ) : ℚ :=
  match norm_avg, norm_max, norm_left with
  | some na, some nm, some nl =>
    (awt * if 0 < na then min 1 (m.avg_wait / na) else 0)
      + (mx * if 0 < nm then min 1 (m.max_wait / nm) else 0)
      + (lf * if 0 < nl then min 1 (m.left_wait / nl) else 0)
  | _, _, _ => awt * m.avg_wait + mx * m.max_wait + lf * m.left_wait

/-- Python `range(start, stop, step)` for positive `step`. -/
def pyRange (start stop step : ℕ) : List ℕ :=
  List.range' start ((stop - start + step - 1) / step) step

/-- `ST_RANGE = range(4, 19, 2)`. -/
def ST_RANGE : List ℕ := pyRange 4 19 2

/-- `LT_RANGE = range(3, 13, 2)`. -/
def LT_RANGE : List ℕ := pyRange 3 13 2

/-- `EXT_THRESHOLD_RANGE = [1]`. -/
def EXT_THRESHOLD_RANGE : List ℕ := [1]

/-- `MAX_EXT_RANGE = [15]`. -/
def MAX_EXT_RANGE : List ℕ := [15]

/-- `SKIP_LIMIT_RANGE = [2]`. -/
def SKIP_LIMIT_RANGE : List ℕ := [2]

/-- One grid point `(st, lt, eth, mext, skip)`. -/
abbrev GridPoint : Type := ℕ × ℕ × ℕ × ℕ × ℕ

/-- `itertools.product(ST_RANGE, LT_RANGE, EXT_THRESHOLD_RANGE,
MAX_EXT_RANGE, SKIP_LIMIT_RANGE)` in iteration order (rightmost component
varies fastest). -/
def search_space : List GridPoint :=
  ST_RANGE.flatMap fun st =>
    LT_RANGE.flatMap fun lt =>
      EXT_THRESHOLD_RANGE.flatMap fun eth =>
        MAX_EXT_RANGE.flatMap fun mext =>
          SKIP_LIMIT_RANGE.map fun skip => (st, lt, eth, mext, skip)

/-- `TimingParams(green_st=st, green_lt=lt, ext_threshold=eth,
max_ext=mext, skip_limit=skip)` with the dataclass defaults for the two
fixed fields. -/
def mkParams (t : GridPoint) : TimingParams :=
  ⟨t.1, t.2.1, 2, 3, t.2.2.1, t.2.2.2.1, t.2.2.2.2⟩

/-- One iteration of the `grid_search` loop: the incumbent is replaced only
on a strictly smaller cost (`best_cost` starts at `inf`, so the first
candidate always replaces the empty incumbent). -/
def gridCheck (f : TimingParams → ℚ) (best : Option (TimingParams × ℚ))
    (t : GridPoint) : Option (TimingParams × ℚ) :=
  let params := mkParams t
  let cost := f params
  match best with
  | none => some (params, cost)
  | some pc => if cost < pc.2 then some (params, cost) else some pc

/-- `grid_search`, abstracted over the per-candidate cost evaluation (in
the source: `run_single_simulation` followed by `ScenarioMetrics.cost`
under the fixed global norms and weights). -/
def grid_search (f : TimingParams → ℚ) : Option (TimingParams × ℚ) :=
  search_space.foldl (gridCheck f) none

/-- Engine behaviour at the protocol boundary, per `STEP` exchange:
`none` models a response header shorter than 11 bytes (peer terminated or
errored), `some ids` a full header carrying `departed_count` vehicle ids. -/
abbrev EngineResp : Type := ℕ → Option (List String)

/-- Loop state of `run_single_simulation`, plus the ghost flag `stopped`
making the `break` on a short read observable. -/
structure SimState where
  arrival_times : List (String × ℕ)
  wait_times : List ℕ
  left_wait_times : List ℕ
  current_step : ℕ
  stopped : Bool
deriving DecidableEq

/-- The initial loop state. -/
def initSimState : SimState := ⟨[], [], [], 0, false⟩

/-- Left-turn classification of a departed vehicle: a re-scan of the
original command list (`next(c for c in commands if c.get("vehicleId") ==
v_id, None)` followed by the left-turn test). -/
def isLeftTurnCmd (allCmds : List Command) (v : String) : Bool :=
  match allCmds.find? (fun c =>
      match c with
      | Command.addVehicle a => a.vehicleId == v
      | Command.step => false) with
  | some (Command.addVehicle a) => get_left_turn_target a.startRoad == a.endRoad
  | _ => false

/-- Handling of one departed vehicle id inside the `step` branch: ids
missing from the arrival map contribute no sample. -/
def processDeparture (allCmds : List Command) (st : SimState) (v : String) : SimState :=
  match st.arrival_times.lookup v with
  | none => st
  | some t =>
    let wait := st.current_step - t
    let st1 := { st with wait_times := st.wait_times ++ [wait] }
    if isLeftTurnCmd allCmds v then
      { st1 with left_wait_times := st1.left_wait_times ++ [wait] }
    else st1

/-- One iteration of the command-replay loop.  `stopped` is absorbing:
after the `break` the remaining commands are not replayed.  The arrival
map is consed on the front, so a duplicate id shadows the old entry
exactly as the Python dict assignment overwrites it. -/
def execCmd (allCmds : List Command) (resp : EngineResp) (st : SimState)
    (c : Command) : SimState :=
  if st.stopped then st
  else
    match c with
    | Command.addVehicle v =>
      { st with arrival_times := (v.vehicleId, st.current_step) :: st.arrival_times }
    | Command.step =>
      match resp (st.current_step + 1) with
      | none => { st with current_step := st.current_step + 1, stopped := true }
      | some ids =>
        ids.foldl (processDeparture allCmds) { st with current_step := st.current_step + 1 }

/-- The command-replay loop of `run_single_simulation`. -/
def runLoop (allCmds : List Command) (resp : EngineResp)
    (cmds : List Command) (st : SimState) : SimState :=
  cmds.foldl (execCmd allCmds resp) st

/-- The final metrics of `run_single_simulation` (its `return` statement):
mean, `max(...)`, count, left-only mean, each defaulting to 0 on an empty
sample list. -/
def mkMetrics (waits lefts : List ℕ) : ScenarioMetrics :=
  { avg_wait := if waits ≠ [] then (waits.sum : ℚ) / waits.length else 0
    max_wait := if waits ≠ [] then ((waits.foldl max 0 : ℕ) : ℚ) else 0
    throughput := waits.length
    left_wait := if lefts ≠ [] then (lefts.sum : ℚ) / lefts.length else 0 }

/-- The raise-free fragment of `run_single_simulation` (optimize_timings.py
lines 144-215 and 221-226): the replay loop followed by the metrics
expression of the final `return`, with the engine process abstracted to
its response behaviour `resp`.  The post-loop cleanup of lines 216-219 —
which can raise and thereby keep these metrics from the caller — is
modelled by `runSingleCleanup`, and the full function including it by
`run_single_simulation_full` below. -/
def run_single_simulation (cmds : List Command) (resp : EngineResp) : ScenarioMetrics :=
  let st := runLoop cmds resp cmds initSimState
  mkMetrics st.wait_times st.left_wait_times

/-- Departure samples produced by one full `STEP` response: for each
reported id, its wait, provided the id is in the arrival map. -/
def stepEvents (arr : List (String × ℕ)) (stepIdx : ℕ) (ids : List String) :
    List (String × ℕ) :=
  ids.filterMap fun v => (arr.lookup v).map fun t => (v, stepIdx - t)

/-- Samples contributed by one replayed command. -/
def cmdEvents (resp : EngineResp) (st : SimState) : Command → List (String × ℕ)
  | Command.addVehicle _ => []
  | Command.step =>
    if st.stopped then []
    else
      match resp (st.current_step + 1) with
      | none => []
      | some ids => stepEvents st.arrival_times (st.current_step + 1) ids

/-- All departure samples of a run, in collection order. -/
def runEvents (allCmds : List Command) (resp : EngineResp) :
    List Command → SimState → List (String × ℕ)
  | [], _ => []
  | c :: rest, st =>
    cmdEvents resp st c ++ runEvents allCmds resp rest (execCmd allCmds resp st c)

/-- Mean of a sample list, 0 if empty. -/
def avgList (l : List ℕ) : ℚ :=
  if l ≠ [] then (l.sum : ℚ) / l.length else 0

/-- Observable behaviour of the engine process around shutdown: whether
writing `STOP` to its stdin still succeeds, and whether it exits within
the bounded (1 second) wait. -/
structure ProcBehavior where
  writeStopOk : Bool
  exitsWithinTimeout : Bool
deriving DecidableEq

/-- Outcome of a close attempt: a normal return (recording whether
`kill()` was used) or a propagated exception. -/
inductive CloseOutcome
  | returned (killed : Bool)
  | raised (err : String)
deriving DecidableEq

/-- `TrafficSimulator.close` (run_simulation.py lines 110-117):
`try: write STOP; flush; wait(timeout=1)` with a bare `except:` that
falls back to `kill()`. -/
def TrafficSimulator.close (p : ProcBehavior) : CloseOutcome :=
  if p.writeStopOk then
    if p.exitsWithinTimeout then CloseOutcome.returned false
    else CloseOutcome.returned true
  else CloseOutcome.returned true

/-- The cleanup at the end of `run_single_simulation` (optimize_timings.py
lines 216-219): `write STOP; flush; wait(timeout=1)` with no exception
handler and no kill fallback. -/
def runSingleCleanup (p : ProcBehavior) : CloseOutcome :=
  if p.writeStopOk then
    if p.exitsWithinTimeout then CloseOutcome.returned false
    else CloseOutcome.raised "TimeoutExpired"
  else CloseOutcome.raised "BrokenPipeError"

/-- `TrafficSimulator.step` (run_simulation.py lines 89-108), abstracted
over the transport: `headerLen` is the number of header bytes actually
read by `read(11)` and `ids` the departure report carried by a full
response.  An empty read raises `RuntimeError("C process did not
respond")`; a non-empty read shorter than 11 bytes reaches
`struct.unpack`, which raises `struct.error`; only a full header returns
the departure list. -/
def TrafficSimulator.step (headerLen : ℕ) (ids : List String) :
    Except String (List String) :=
  if headerLen = 0 then Except.error "RuntimeError"
  else if headerLen < 11 then Except.error "struct.error"
  else Except.ok ids

/-- `run_single_simulation` in full (optimize_timings.py lines 144-226):
the replay loop, then the unguarded cleanup `write STOP; flush;
wait(timeout=1)` of lines 216-219, then the metrics `return`.  A cleanup
exception aborts the function before the `return`, so no metrics reach
the caller. -/
def run_single_simulation_full (cmds : List Command) (resp : EngineResp)
    (p : ProcBehavior) : Except String ScenarioMetrics :=
  match runSingleCleanup p with
  | CloseOutcome.raised e => Except.error e
  | CloseOutcome.returned _ => Except.ok (run_single_simulation cmds resp)

/-- C8: for every road, `get_left_turn_target` iterated four times is the
identity, and `get_left_turn_target r` never equals `r` (the roads form
the 4-cycle north → east → south → west → north). -/
theorem left_turn_target_period_four (r : Road) :
    get_left_turn_target (get_left_turn_target (get_left_turn_target
      (get_left_turn_target r))) = r ∧ get_left_turn_target r ≠ r := by
  cases r <;> exact ⟨rfl, by decide⟩

/-- C3: `create_command_list` is deterministic in the scenario and the
seed.  The ambient global generator state (`g1`, `g2`) at call time is
overwritten by `random.seed` on entry, so two independent invocations
return the same command sequence: equal as lists, of equal length, and
element-wise equal. -/
theorem create_command_list_deterministic (mt : MT) (sc : Scenario)
    (seed : Option ℕ) (g1 g2 : RNG) :
    (create_command_list mt sc seed g1).1 = (create_command_list mt sc seed g2).1 ∧
      (create_command_list mt sc seed g1).1.1.length =
        (create_command_list mt sc seed g2).1.1.length ∧
      ∀ i : ℕ, (create_command_list mt sc seed g1).1.1.get? i =
        (create_command_list mt sc seed g2).1.1.get? i :=
  ⟨rfl, rfl, fun _ => rfl⟩

/-- C1 counterexample: with metrics `(avg, max, thr, left) = (1, 1, 0, 1)`,
weights `(1, 1, 1)` and all three baselines supplied as the non-negative
value 0, every raw metric equals or exceeds its baseline, so the claim
requires each normalized term to equal exactly 1.0 and hence the cost to
be `1 + 1 + 1`; the code returns 0 (each `norm > 0` guard fails). -/
theorem cost_zero_baseline_counterexample :
    (ScenarioMetrics.cost ⟨1, 1, 0, 1⟩ 1 1 1 (some 0) (some 0) (some 0) = 0) ∧
      ((0 : ℚ) ≠ 1 + 1 + 1) := by
  constructor
  · norm_num [ScenarioMetrics.cost]
  · norm_num

/-- C1 (amended): for non-negative metrics and weights, when all three
baselines are supplied and positive, the cost equals the weighted sum of
the `min(1, x/baseline)` terms, each term lies in `[0, 1]`, and a term
equals exactly 1 whenever its raw metric equals or exceeds its baseline;
when any baseline is missing the cost is the raw weighted sum.  (The
claim as frozen also allowed zero baselines, where the code yields a 0
term instead of 1; requiring positive baselines is the minimal repair.) -/
theorem cost_normalized_bounds (m : ScenarioMetrics) (awt mx lf na nm nl : ℚ)
    (havg : 0 ≤ m.avg_wait) (hmax : 0 ≤ m.max_wait) (hleft : 0 ≤ m.left_wait)
    (hwa : 0 ≤ awt) (hwm : 0 ≤ mx) (hwl : 0 ≤ lf)
    (hna : 0 < na) (hnm : 0 < nm) (hnl : 0 < nl) :
    (m.cost awt mx lf (some na) (some nm) (some nl) =
        awt * min 1 (m.avg_wait / na) + mx * min 1 (m.max_wait / nm)
          + lf * min 1 (m.left_wait / nl)) ∧
      (0 ≤ min 1 (m.avg_wait / na) ∧ min 1 (m.avg_wait / na) ≤ 1) ∧
      (0 ≤ min 1 (m.max_wait / nm) ∧ min 1 (m.max_wait / nm) ≤ 1) ∧
      (0 ≤ min 1 (m.left_wait / nl) ∧ min 1 (m.left_wait / nl) ≤ 1) ∧
      (na ≤ m.avg_wait → min 1 (m.avg_wait / na) = 1) ∧
      (nm ≤ m.max_wait → min 1 (m.max_wait / nm) = 1) ∧
      (nl ≤ m.left_wait → min 1 (m.left_wait / nl) = 1) ∧
      (∀ oa om ol : Option ℚ, oa = none ∨ om = none ∨ ol = none →
        m.cost awt mx lf oa om ol =
          awt * m.avg_wait + mx * m.max_wait + lf * m.left_wait) := by
  refine ⟨?_, ⟨?_, min_le_left _ _⟩, ⟨?_, min_le_left _ _⟩, ⟨?_, min_le_left _ _⟩,
    ?_, ?_, ?_, ?_⟩
  · simp [ScenarioMetrics.cost, if_pos hna, if_pos hnm, if_pos hnl]
  · exact le_min (by norm_num) (div_nonneg havg hna.le)
  · exact le_min (by norm_num) (div_nonneg hmax hnm.le)
  · exact le_min (by norm_num) (div_nonneg hleft hnl.le)
  · intro h; exact min_eq_left ((one_le_div hna).mpr h)
  · intro h; exact min_eq_left ((one_le_div hnm).mpr h)
  · intro h; exact min_eq_left ((one_le_div hnl).mpr h)
  · intro oa om ol h
    rcases oa with _ | a <;> rcases om with _ | b <;> rcases ol with _ | c <;>
      simp_all [ScenarioMetrics.cost]

/-- C1 witness: `cost_normalized_bounds` instantiated at metrics
`(3, 5, 7, 2)`, weights `(1, 1, 1)` and baselines `(2, 2, 2)`. -/
theorem cost_normalized_bounds_witness :
    (ScenarioMetrics.cost ⟨3, 5, 7, 2⟩ 1 1 1 (some 2) (some 2) (some 2) =
        1 * min 1 ((3 : ℚ) / 2) + 1 * min 1 ((5 : ℚ) / 2) + 1 * min 1 ((2 : ℚ) / 2)) ∧
      min 1 ((5 : ℚ) / 2) = 1 := by
  have h := cost_normalized_bounds ⟨3, 5, 7, 2⟩ 1 1 1 2 2 2 (by norm_num)
    (by norm_num) (by norm_num) (by norm_num) (by norm_num) (by norm_num)
    (by norm_num) (by norm_num) (by norm_num)
  exact ⟨h.1, h.2.2.2.2.2.1 (by norm_num)⟩

/-- C5 counterexample: an engine that stays alive past the bounded wait.
The cleanup at the end of `run_single_simulation` calls
`proc.wait(timeout=1)` with no handler, so `TimeoutExpired` propagates to
the caller and the process is never killed, contrary to the claim for
that code path. -/
theorem run_single_cleanup_raises :
    runSingleCleanup ⟨true, false⟩ = CloseOutcome.raised "TimeoutExpired" := rfl

/-- C5 (amended): `TrafficSimulator.close` returns normally for every
process behaviour (its bare `except:` also covers a failing `STOP`
write), and when the engine does not exit within the bounded timeout the
process is forcibly killed.  The cleanup at the end of
`run_single_simulation` does not share this property: on timeout it
propagates `TimeoutExpired` without killing (see the counterexample). -/
theorem close_never_raises (p : ProcBehavior) :
    (∃ k, TrafficSimulator.close p = CloseOutcome.returned k) ∧
      (p.exitsWithinTimeout = false →
        TrafficSimulator.close p = CloseOutcome.returned true) := by
  rcases p with ⟨w, e⟩
  cases w <;> cases e <;> exact ⟨⟨_, rfl⟩, by simp [TrafficSimulator.close]⟩

/-- C5 witness: `close_never_raises` at a process that never exits: the
close path kills it and returns normally. -/
theorem close_never_raises_witness :
    TrafficSimulator.close ⟨true, false⟩ = CloseOutcome.returned true :=
  (close_never_raises ⟨true, false⟩).2 rfl

/-- Invariant of the `grid_search` fold: starting from an incumbent whose
recorded cost is its own evaluation, the fold returns a candidate whose
recorded cost is its evaluation, is a lower bound of everything scanned,
and — unless the incumbent survives untouched — comes from the scanned
list, strictly beating the incumbent and every candidate before it. -/
theorem gridCheck_foldl_spec (f : TimingParams → ℚ) :
    ∀ (l : List GridPoint) (p : TimingParams) (c : ℚ), c = f p →
    ∃ q d, l.foldl (gridCheck f) (some (p, c)) = some (q, d) ∧ d = f q ∧
      d ≤ c ∧ (∀ t ∈ l, d ≤ f (mkParams t)) ∧
      ((q = p ∧ d = c) ∨ ∃ l1 t l2, l = l1 ++ t :: l2 ∧ q = mkParams t ∧ d < c ∧
        ∀ u ∈ l1, d < f (mkParams u)) := by
  intro l
  induction l with
  | nil =>
    intro p c hc
    exact ⟨p, c, rfl, hc, le_refl c, by simp, Or.inl ⟨rfl, rfl⟩⟩
  | cons t l ih =>
    intro p c hc
    by_cases h : f (mkParams t) < c
    · obtain ⟨q, d, heq, hdq, hdc, hall, hcases⟩ :=
        ih (mkParams t) (f (mkParams t)) rfl
      refine ⟨q, d, ?_, hdq, ?_, ?_, ?_⟩
      · simpa [gridCheck, if_pos h] using heq
      · exact le_of_lt (lt_of_le_of_lt hdc h)
      · intro u hu
        rcases List.mem_cons.mp hu with rfl | hu
        · exact hdc
        · exact hall u hu
      · rcases hcases with ⟨hq, hd⟩ | ⟨l1, u, l2, hl, hq, hlt, hbefore⟩
        · exact Or.inr ⟨[], t, l, by simp, hq, hd ▸ h, by simp⟩
        · refine Or.inr ⟨t :: l1, u, l2, by simp [hl], hq,
            lt_trans hlt h, ?_⟩
          intro v hv
          rcases List.mem_cons.mp hv with rfl | hv
          · exact hlt
          · exact hbefore v hv
    · obtain ⟨q, d, heq, hdq, hdc, hall, hcases⟩ := ih p c hc
      push_neg at h
      refine ⟨q, d, ?_, hdq, hdc, ?_, ?_⟩
      · simpa [gridCheck, if_neg (not_lt.mpr h)] using heq
      · intro u hu
        rcases List.mem_cons.mp hu with rfl | hu
        · exact le_trans hdc (hc ▸ h)
        · exact hall u hu
      · rcases hcases with hleft | ⟨l1, u, l2, hl, hq, hlt, hbefore⟩
        · exact Or.inl hleft
        · refine Or.inr ⟨t :: l1, u, l2, by simp [hl], hq, hlt, ?_⟩
          intro v hv
          rcases List.mem_cons.mp hv with rfl | hv
          · exact lt_of_lt_of_le hlt (hc ▸ h)
          · exact hbefore v hv

/-- C2: `grid_search` enumerates the full Cartesian product of the five
configured ranges (membership characterization and exact cardinality),
and for every cost function over the grid it reports a candidate whose
cost is its own evaluation and is the minimum over all enumerated
candidates; every candidate strictly earlier in the declared
outermost-to-innermost iteration order has strictly larger cost, so ties
keep the first-seen candidate. -/
theorem grid_search_first_argmin (f : TimingParams → ℚ) :
    (∀ a b e x y : ℕ, (a, b, e, x, y) ∈ search_space ↔
        a ∈ ST_RANGE ∧ b ∈ LT_RANGE ∧ e ∈ EXT_THRESHOLD_RANGE ∧
          x ∈ MAX_EXT_RANGE ∧ y ∈ SKIP_LIMIT_RANGE) ∧
    search_space.length = 40 ∧
    ∃ p c, grid_search f = some (p, c) ∧ c = f p ∧
      (∃ t ∈ search_space, p = mkParams t) ∧
      (∀ t ∈ search_space, c ≤ f (mkParams t)) ∧
      ∃ l1 t l2, search_space = l1 ++ t :: l2 ∧ p = mkParams t ∧
        ∀ u ∈ l1, c < f (mkParams u) := by
  refine ⟨?_, by decide, ?_⟩
  · intro a b e x y
    simp only [search_space, List.mem_flatMap, List.mem_map, Prod.mk.injEq]
    constructor
    · rintro ⟨st, hst, lt', hlt, eth, heth, mext, hmext, skip', hskip,
        rfl, rfl, rfl, rfl, rfl⟩
      exact ⟨hst, hlt, heth, hmext, hskip⟩
    · rintro ⟨ha, hb, he, hx, hy⟩
      exact ⟨a, ha, b, hb, e, he, x, hx, y, hy, rfl, rfl, rfl, rfl, rfl⟩
  · have hs : search_space = (4, 3, 1, 15, 2) :: search_space.tail := by decide
    obtain ⟨q, d, heq, hdq, hdc, hall, hcases⟩ :=
      gridCheck_foldl_spec f search_space.tail (mkParams (4, 3, 1, 15, 2))
        (f (mkParams (4, 3, 1, 15, 2))) rfl
    have hgs : grid_search f = some (q, d) := by
      rw [grid_search, hs]
      simpa [gridCheck] using heq
    refine ⟨q, d, hgs, hdq, ?_, ?_, ?_⟩
    · rcases hcases with ⟨hq, _⟩ | ⟨l1, u, l2, hl, hq, _, _⟩
      · exact ⟨(4, 3, 1, 15, 2), by rw [hs]; exact List.mem_cons_self _ _, hq⟩
      · exact ⟨u, by rw [hs, hl]; simp, hq⟩
    · intro t ht
      rw [hs] at ht
      rcases List.mem_cons.mp ht with rfl | ht
      · exact hdc
      · exact hall t ht
    · rcases hcases with ⟨hq, hd⟩ | ⟨l1, u, l2, hl, hq, hlt, hbefore⟩
      · exact ⟨[], (4, 3, 1, 15, 2), search_space.tail, by simpa using hs, hq, by simp⟩
      · refine ⟨(4, 3, 1, 15, 2) :: l1, u, l2, by rw [hs, hl]; rfl, hq, ?_⟩
        intro v hv
        rcases List.mem_cons.mp hv with rfl | hv
        · exact hlt
        · exact hbefore v hv

/-- A stopped replay state is absorbing for a single command. -/
theorem execCmd_stopped (allCmds : List Command) (resp : EngineResp)
    (st : SimState) (c : Command) (h : st.stopped = true) :
    execCmd allCmds resp st c = st := by
  simp [execCmd, h]

/-- A stopped replay state is absorbing for the whole loop: once the
`break` fires, no further command is replayed. -/
theorem runLoop_stopped (allCmds : List Command) (resp : EngineResp) :
    ∀ (cmds : List Command) (st : SimState), st.stopped = true →
      runLoop allCmds resp cmds st = st := by
  intro cmds
  induction cmds with
  | nil => intro st _; rfl
  | cons c rest ih =>
    intro st h
    calc runLoop allCmds resp (c :: rest) st
        = runLoop allCmds resp rest (execCmd allCmds resp st c) := rfl
      _ = runLoop allCmds resp rest st := by
          rw [execCmd_stopped allCmds resp st c h]
      _ = st := ih st h

/-- C4 (amended): a `STEP` response header shorter than 11 bytes ends the
replay immediately: the loop breaks in place, so the remaining commands
`rest` are not replayed, and the metrics expression uses exactly the
samples collected before the short read.  The original claim's "without
raising / used to derive the returned `ScenarioMetrics`" holds only up to
the post-loop cleanup: the full `run_single_simulation` returns those
partial metrics when the unguarded `STOP`/`wait` cleanup returns
normally, and propagates the cleanup's exception — returning nothing —
otherwise; and `TrafficSimulator.step` raises on every short header
instead of ending the session without raising. -/
theorem short_response_ends_session (resp : EngineResp) (pre rest : List Command)
    (p : ProcBehavior)
    (h1 : (runLoop (pre ++ Command.step :: rest) resp pre initSimState).stopped = false)
    (h2 : resp ((runLoop (pre ++ Command.step :: rest) resp pre initSimState).current_step
        + 1) = none) :
    (runLoop (pre ++ Command.step :: rest) resp (pre ++ Command.step :: rest) initSimState =
      { runLoop (pre ++ Command.step :: rest) resp pre initSimState with
          current_step :=
            (runLoop (pre ++ Command.step :: rest) resp pre initSimState).current_step + 1,
          stopped := true }) ∧
      (run_single_simulation_full (pre ++ Command.step :: rest) resp p =
        match runSingleCleanup p with
        | CloseOutcome.raised e => Except.error e
        | CloseOutcome.returned _ =>
          Except.ok (mkMetrics
            (runLoop (pre ++ Command.step :: rest) resp pre initSimState).wait_times
            (runLoop (pre ++ Command.step :: rest) resp pre initSimState).left_wait_times)) ∧
      (∀ n ids, n < 11 → ∃ e, TrafficSimulator.step n ids = Except.error e) := by
  have key : ∀ st : SimState, st.stopped = false → resp (st.current_step + 1) = none →
      runLoop (pre ++ Command.step :: rest) resp (Command.step :: rest) st =
        { st with current_step := st.current_step + 1, stopped := true } := by
    intro st hs hr
    have hc : execCmd (pre ++ Command.step :: rest) resp st Command.step =
        { st with current_step := st.current_step + 1, stopped := true } := by
      simp [execCmd, hs, hr]
    calc runLoop (pre ++ Command.step :: rest) resp (Command.step :: rest) st
        = runLoop (pre ++ Command.step :: rest) resp rest
            (execCmd (pre ++ Command.step :: rest) resp st Command.step) := rfl
      _ = { st with current_step := st.current_step + 1, stopped := true } := by
          rw [hc]
          exact runLoop_stopped _ resp rest _ rfl
  have hsplit :
      runLoop (pre ++ Command.step :: rest) resp (pre ++ Command.step :: rest) initSimState =
        runLoop (pre ++ Command.step :: rest) resp (Command.step :: rest)
          (runLoop (pre ++ Command.step :: rest) resp pre initSimState) := by
    simp [runLoop, List.foldl_append]
  have hrss : run_single_simulation (pre ++ Command.step :: rest) resp =
      mkMetrics (runLoop (pre ++ Command.step :: rest) resp pre initSimState).wait_times
        (runLoop (pre ++ Command.step :: rest) resp pre initSimState).left_wait_times := by
    show mkMetrics
        (runLoop (pre ++ Command.step :: rest) resp (pre ++ Command.step :: rest)
          initSimState).wait_times
        (runLoop (pre ++ Command.step :: rest) resp (pre ++ Command.step :: rest)
          initSimState).left_wait_times = _
    rw [hsplit, key _ h1 h2]
  refine ⟨?_, ?_, ?_⟩
  · rw [hsplit]
    exact key _ h1 h2
  · cases hp : runSingleCleanup p with
    | raised e => simp [run_single_simulation_full, hp]
    | returned k => simp [run_single_simulation_full, hp, hrss]
  · intro n ids hn
    by_cases h0 : n = 0
    · exact ⟨"RuntimeError", by simp [TrafficSimulator.step, h0]⟩
    · exact ⟨"struct.error", by simp [TrafficSimulator.step, h0, hn]⟩

/-- C4 counterexample: a session whose single `step` is answered with a
short header because the engine terminated.  Writing `STOP` to the dead
engine's stdin then raises `BrokenPipeError` in the unguarded cleanup
(optimize_timings.py lines 216-219), so no `ScenarioMetrics` are ever
returned to the caller — refuting the claim's "stops ... without raising,
and the wait samples ... are still used to derive the returned
ScenarioMetrics"; and `TrafficSimulator.step` on a 5-byte header raises
`struct.error` rather than ending the session without raising. -/
theorem short_response_no_metrics :
    (run_single_simulation_full
        [Command.addVehicle ⟨"a", Road.north, Road.east⟩, Command.step]
        (fun _ => none) ⟨false, true⟩ = Except.error "BrokenPipeError") ∧
      (∀ m : ScenarioMetrics,
        run_single_simulation_full
          [Command.addVehicle ⟨"a", Road.north, Road.east⟩, Command.step]
          (fun _ => none) ⟨false, true⟩ ≠ Except.ok m) ∧
      TrafficSimulator.step 5 [] = Except.error "struct.error" := by
  refine ⟨rfl, ?_, rfl⟩
  intro m h
  simp [run_single_simulation_full, runSingleCleanup] at h

/-- C4 witness: the same short-read session against an engine whose
cleanup succeeds: the partial (here empty) samples are returned as
metrics. -/
theorem short_response_ends_session_witness :
    ((runLoop ([Command.addVehicle ⟨"a", Road.north, Road.east⟩] ++ Command.step :: [])
        (fun _ => none) [Command.addVehicle ⟨"a", Road.north, Road.east⟩]
        initSimState).stopped = false) ∧
      run_single_simulation_full
        ([Command.addVehicle ⟨"a", Road.north, Road.east⟩] ++ Command.step :: [])
        (fun _ => none) ⟨true, true⟩ = Except.ok (mkMetrics [] []) :=
  ⟨rfl, (short_response_ends_session (fun _ => none)
    [Command.addVehicle ⟨"a", Road.north, Road.east⟩] [] ⟨true, true⟩ rfl rfl).2.1⟩

/-- `processDeparture` on an id missing from the arrival map is a no-op. -/
theorem processDeparture_none (allCmds : List Command) (st : SimState) (v : String)
    (h : st.arrival_times.lookup v = none) :
    processDeparture allCmds st v = st := by
  rw [processDeparture, h]

/-- `processDeparture` on a matched id appends one wait sample, and the
same sample to the left list when the vehicle's route is a left turn. -/
theorem processDeparture_some (allCmds : List Command) (st : SimState) (v : String)
    (t : ℕ) (h : st.arrival_times.lookup v = some t) :
    processDeparture allCmds st v =
      { st with
          wait_times := st.wait_times ++ [st.current_step - t],
          left_wait_times :=
            if isLeftTurnCmd allCmds v then st.left_wait_times ++ [st.current_step - t]
            else st.left_wait_times } := by
  rw [processDeparture, h]
  by_cases hl : isLeftTurnCmd allCmds v <;> simp [hl]

/-- An unmatched id contributes no event. -/
theorem stepEvents_cons_none (arr : List (String × ℕ)) (sI : ℕ) (v : String)
    (ids : List String) (h : arr.lookup v = none) :
    stepEvents arr sI (v :: ids) = stepEvents arr sI ids := by
  simp [stepEvents, List.filterMap_cons, h]

/-- A matched id contributes its wait sample. -/
theorem stepEvents_cons_some (arr : List (String × ℕ)) (sI : ℕ) (v : String)
    (ids : List String) (t : ℕ) (h : arr.lookup v = some t) :
    stepEvents arr sI (v :: ids) = (v, sI - t) :: stepEvents arr sI ids := by
  simp [stepEvents, List.filterMap_cons, h]

/-- The departure fold of one `STEP` response: the arrival map, step
counter and stop flag are untouched; the wait list grows by the step's
events and the left list by the left-turn-classified events. -/
theorem foldl_processDeparture_spec (allCmds : List Command) :
    ∀ (ids : List String) (st : SimState),
      (ids.foldl (processDeparture allCmds) st).arrival_times = st.arrival_times ∧
      (ids.foldl (processDeparture allCmds) st).current_step = st.current_step ∧
      (ids.foldl (processDeparture allCmds) st).stopped = st.stopped ∧
      (ids.foldl (processDeparture allCmds) st).wait_times = st.wait_times ++
        (stepEvents st.arrival_times st.current_step ids).map Prod.snd ∧
      (ids.foldl (processDeparture allCmds) st).left_wait_times = st.left_wait_times ++
        ((stepEvents st.arrival_times st.current_step ids).filter
          (fun e => isLeftTurnCmd allCmds e.1)).map Prod.snd := by
  intro ids
  induction ids with
  | nil =>
    intro st
    refine ⟨rfl, rfl, rfl, ?_, ?_⟩ <;> simp [stepEvents]
  | cons v ids ih =>
    intro st
    cases h : st.arrival_times.lookup v with
    | none =>
      rw [List.foldl_cons, processDeparture_none allCmds st v h,
        stepEvents_cons_none _ _ _ _ h]
      exact ih st
    | some t =>
      rw [List.foldl_cons, processDeparture_some allCmds st v t h,
        stepEvents_cons_some _ _ _ _ _ h]
      obtain ⟨ha, hc, hs, hw, hl⟩ := ih { st with
        wait_times := st.wait_times ++ [st.current_step - t],
        left_wait_times :=
          if isLeftTurnCmd allCmds v then st.left_wait_times ++ [st.current_step - t]
          else st.left_wait_times }
      refine ⟨ha, hc, hs, ?_, ?_⟩
      · rw [hw]; simp
      · rw [hl]
        by_cases hL : isLeftTurnCmd allCmds v <;>
          simp [hL, List.filter_cons]

/-- A stopped state produces no further events. -/
theorem runEvents_stopped (allCmds : List Command) (resp : EngineResp) :
    ∀ (cmds : List Command) (st : SimState), st.stopped = true →
      runEvents allCmds resp cmds st = [] := by
  intro cmds
  induction cmds with
  | nil => intro st _; rfl
  | cons c rest ih =>
    intro st h
    show cmdEvents resp st c ++ runEvents allCmds resp rest (execCmd allCmds resp st c) = []
    rw [execCmd_stopped allCmds resp st c h, ih st h]
    cases c with
    | addVehicle v => rfl
    | step => simp [cmdEvents, h]

/-- Sample-collection characterization of the replay loop: the final wait
list is the collected departure samples, and the final left list is
exactly the left-turn-classified subsequence of those samples. -/
theorem runLoop_events (allCmds : List Command) (resp : EngineResp) :
    ∀ (cmds : List Command) (st : SimState),
      (runLoop allCmds resp cmds st).wait_times =
        st.wait_times ++ (runEvents allCmds resp cmds st).map Prod.snd ∧
      (runLoop allCmds resp cmds st).left_wait_times =
        st.left_wait_times ++
          ((runEvents allCmds resp cmds st).filter
            (fun e => isLeftTurnCmd allCmds e.1)).map Prod.snd := by
  intro cmds
  induction cmds with
  | nil => intro st; constructor <;> simp [runLoop, runEvents]
  | cons c rest ih =>
    intro st
    by_cases hs : st.stopped = true
    · rw [runLoop_stopped allCmds resp (c :: rest) st hs,
        runEvents_stopped allCmds resp (c :: rest) st hs]
      constructor <;> simp
    · have hs' : st.stopped = false := by
        cases hstop : st.stopped
        · rfl
        · exact absurd hstop hs
      have hcons : runLoop allCmds resp (c :: rest) st =
          runLoop allCmds resp rest (execCmd allCmds resp st c) := rfl
      have hev : runEvents allCmds resp (c :: rest) st =
          cmdEvents resp st c ++ runEvents allCmds resp rest (execCmd allCmds resp st c) := rfl
      rw [hcons, hev]
      cases c with
      | addVehicle v =>
        have he : execCmd allCmds resp st (Command.addVehicle v) =
            { st with
                arrival_times := (v.vehicleId, st.current_step) :: st.arrival_times } := by
          simp [execCmd, hs']
        rw [he]
        obtain ⟨h1, h2⟩ := ih { st with
          arrival_times := (v.vehicleId, st.current_step) :: st.arrival_times }
        constructor
        · rw [h1]; simp [cmdEvents]
        · rw [h2]; simp [cmdEvents]
      | step =>
        cases hr : resp (st.current_step + 1) with
        | none =>
          have he : execCmd allCmds resp st Command.step =
              { st with current_step := st.current_step + 1, stopped := true } := by
            simp [execCmd, hs', hr]
          rw [he, runLoop_stopped allCmds resp rest _ rfl,
            runEvents_stopped allCmds resp rest _ rfl]
          constructor <;> simp [cmdEvents, hs', hr]
        | some ids =>
          have he : execCmd allCmds resp st Command.step =
              ids.foldl (processDeparture allCmds)
                { st with current_step := st.current_step + 1 } := by
            simp [execCmd, hs', hr]
          rw [he]
          obtain ⟨fa, fc, fs, fw, fl⟩ := foldl_processDeparture_spec allCmds ids
            { st with current_step := st.current_step + 1 }
          obtain ⟨h1, h2⟩ := ih (ids.foldl (processDeparture allCmds)
            { st with current_step := st.current_step + 1 })
          constructor
          · rw [h1, fw]
            simp [cmdEvents, hs', hr]
          · rw [h2, fl]
            simp [cmdEvents, hs', hr, List.filter_append]

/-- A left `max` fold over naturals dominates its seed and every element. -/
theorem foldl_max_bound : ∀ (l : List ℕ) (a : ℕ),
    a ≤ l.foldl max a ∧ ∀ x ∈ l, x ≤ l.foldl max a := by
  intro l
  induction l with
  | nil => intro a; exact ⟨le_refl a, by simp⟩
  | cons x l ih =>
    intro a
    obtain ⟨h1, h2⟩ := ih (max a x)
    refine ⟨le_trans (le_max_left a x) h1, ?_⟩
    intro y hy
    rcases List.mem_cons.mp hy with rfl | hy
    · exact le_trans (le_max_right a y) h1
    · exact h2 y hy

/-- A left `max` fold over naturals returns its seed or an element. -/
theorem foldl_max_attained : ∀ (l : List ℕ) (a : ℕ),
    l.foldl max a = a ∨ l.foldl max a ∈ l := by
  intro l
  induction l with
  | nil => intro a; exact Or.inl rfl
  | cons x l ih =>
    intro a
    rcases ih (max a x) with h | h
    · rcases max_choice a x with hm | hm
      · exact Or.inl (by rw [List.foldl_cons, h, hm])
      · exact Or.inr (by rw [List.foldl_cons, h, hm]; exact List.mem_cons_self _ _)
    · exact Or.inr (List.mem_cons_of_mem _ h)

/-- C7: the returned `ScenarioMetrics` are derived from the collected
samples: `avg_wait` is the mean of all collected wait samples (0 if
none), `throughput` their count, `left_wait` the mean over exactly the
left-turn-classified samples, and `max_wait` is 0 when no sample was
collected and otherwise a collected sample that bounds all collected
samples. -/
theorem metrics_from_samples (cmds : List Command) (resp : EngineResp) :
    ((run_single_simulation cmds resp).avg_wait =
        avgList ((runEvents cmds resp cmds initSimState).map Prod.snd)) ∧
      ((run_single_simulation cmds resp).throughput =
        (runEvents cmds resp cmds initSimState).length) ∧
      ((run_single_simulation cmds resp).left_wait =
        avgList (((runEvents cmds resp cmds initSimState).filter
          (fun e => isLeftTurnCmd cmds e.1)).map Prod.snd)) ∧
      (runEvents cmds resp cmds initSimState = [] →
        (run_single_simulation cmds resp).max_wait = 0) ∧
      (runEvents cmds resp cmds initSimState ≠ [] →
        ∃ w ∈ (runEvents cmds resp cmds initSimState).map Prod.snd,
          (run_single_simulation cmds resp).max_wait = (w : ℚ) ∧
            ∀ u ∈ (runEvents cmds resp cmds initSimState).map Prod.snd, u ≤ w) := by
  obtain ⟨hw, hl⟩ := runLoop_events cmds resp cmds initSimState
  have hw' : (runLoop cmds resp cmds initSimState).wait_times =
      (runEvents cmds resp cmds initSimState).map Prod.snd := by
    simpa [initSimState] using hw
  have hl' : (runLoop cmds resp cmds initSimState).left_wait_times =
      ((runEvents cmds resp cmds initSimState).filter
        (fun e => isLeftTurnCmd cmds e.1)).map Prod.snd := by
    simpa [initSimState] using hl
  have hrun : run_single_simulation cmds resp =
      mkMetrics ((runEvents cmds resp cmds initSimState).map Prod.snd)
        (((runEvents cmds resp cmds initSimState).filter
          (fun e => isLeftTurnCmd cmds e.1)).map Prod.snd) := by
    show mkMetrics (runLoop cmds resp cmds initSimState).wait_times
        (runLoop cmds resp cmds initSimState).left_wait_times = _
    rw [hw', hl']
  rw [hrun]
  refine ⟨rfl, by simp [mkMetrics], rfl, ?_, ?_⟩
  · intro h
    simp [mkMetrics, h]
  · intro h
    have hA : (runEvents cmds resp cmds initSimState).map Prod.snd ≠ [] := by
      simpa using h
    have hmax : (mkMetrics ((runEvents cmds resp cmds initSimState).map Prod.snd)
        (((runEvents cmds resp cmds initSimState).filter
          (fun e => isLeftTurnCmd cmds e.1)).map Prod.snd)).max_wait =
        ((((runEvents cmds resp cmds initSimState).map Prod.snd).foldl max 0 : ℕ) : ℚ) := by
      simp [mkMetrics, hA]
    rcases foldl_max_attained ((runEvents cmds resp cmds initSimState).map Prod.snd) 0 with
      h0 | hmem
    · obtain ⟨x, xs, hAl⟩ :
          ∃ y ys, (runEvents cmds resp cmds initSimState).map Prod.snd = y :: ys := by
        cases hc : (runEvents cmds resp cmds initSimState).map Prod.snd with
        | nil => exact absurd hc hA
        | cons y ys => exact ⟨y, ys, rfl⟩
      have hx0 : x ≤ ((runEvents cmds resp cmds initSimState).map Prod.snd).foldl max 0 :=
        (foldl_max_bound _ 0).2 x (by rw [hAl]; exact List.mem_cons_self _ _)
      have hx : x = 0 := by omega
      refine ⟨x, by rw [hAl]; exact List.mem_cons_self _ _, ?_, ?_⟩
      · rw [hmax, h0, hx]
      · intro u hu
        have := (foldl_max_bound _ 0).2 u hu
        omega
    · refine ⟨_, hmem, hmax, ?_⟩
      intro u hu
      exact (foldl_max_bound _ 0).2 u hu

/-- C7 witness: one vehicle added at step 0, departing in the first step
response; its wait sample is 1 and it is left-turning (north → east). -/
theorem metrics_from_samples_witness :
    ((run_single_simulation [Command.addVehicle ⟨"a", Road.north, Road.east⟩, Command.step]
        (fun _ => some ["a"])).avg_wait =
      avgList ((runEvents [Command.addVehicle ⟨"a", Road.north, Road.east⟩, Command.step]
        (fun _ => some ["a"])
        [Command.addVehicle ⟨"a", Road.north, Road.east⟩, Command.step]
        initSimState).map Prod.snd)) ∧
    ∃ w ∈ (runEvents [Command.addVehicle ⟨"a", Road.north, Road.east⟩, Command.step]
        (fun _ => some ["a"])
        [Command.addVehicle ⟨"a", Road.north, Road.east⟩, Command.step]
        initSimState).map Prod.snd,
      (run_single_simulation [Command.addVehicle ⟨"a", Road.north, Road.east⟩, Command.step]
          (fun _ => some ["a"])).max_wait = (w : ℚ) ∧
        ∀ u ∈ (runEvents [Command.addVehicle ⟨"a", Road.north, Road.east⟩, Command.step]
            (fun _ => some ["a"])
            [Command.addVehicle ⟨"a", Road.north, Road.east⟩, Command.step]
            initSimState).map Prod.snd, u ≤ w := by
  have h := metrics_from_samples
    [Command.addVehicle ⟨"a", Road.north, Road.east⟩, Command.step] (fun _ => some ["a"])
  exact ⟨h.1, h.2.2.2.2 (by decide)⟩

/-- A successful association-list lookup comes from a member pair. -/
theorem lookup_some_mem : ∀ (l : List (String × ℕ)) (k : String) (t : ℕ),
    l.lookup k = some t → (k, t) ∈ l := by
  intro l
  induction l with
  | nil => intro k t h; simp [List.lookup] at h
  | cons p l ih =>
    intro k t h
    rcases p with ⟨a, b⟩
    rw [List.lookup_cons] at h
    cases hk : (k == a) with
    | true =>
      rw [hk] at h
      simp only [] at h
      have hka : k = a := eq_of_beq hk
      have hbt : b = t := by simpa using h
      rw [hka, hbt]
      exact List.mem_cons_self _ _
    | false =>
      rw [hk] at h
      simp only [] at h
      exact List.mem_cons_of_mem _ (ih k t h)

/-- Departure processing keeps waits strictly positive: when every
arrival in the map is strictly below the current step counter, every
appended sample is at least 1. -/
theorem foldl_processDeparture_pos (allCmds : List Command) :
    ∀ (ids : List String) (st : SimState),
      (∀ p ∈ st.arrival_times, p.2 < st.current_step) →
      (∀ w ∈ st.wait_times, 1 ≤ w) →
      (∀ p ∈ (ids.foldl (processDeparture allCmds) st).arrival_times,
          p.2 < (ids.foldl (processDeparture allCmds) st).current_step) ∧
        ∀ w ∈ (ids.foldl (processDeparture allCmds) st).wait_times, 1 ≤ w := by
  intro ids
  induction ids with
  | nil => intro st ha hw; exact ⟨ha, hw⟩
  | cons v ids ih =>
    intro st ha hw
    cases h : st.arrival_times.lookup v with
    | none =>
      rw [List.foldl_cons, processDeparture_none allCmds st v h]
      exact ih st ha hw
    | some t =>
      rw [List.foldl_cons, processDeparture_some allCmds st v t h]
      refine ih _ ha ?_
      intro w hwmem
      rcases List.mem_append.mp hwmem with hmem | hmem
      · exact hw w hmem
      · have ht : t < st.current_step := ha (v, t) (lookup_some_mem _ v t h)
        have : w = st.current_step - t := by simpa using hmem
        omega

/-- Replay invariant: every recorded arrival step is at most the current
step counter, and every collected wait sample is at least 1 (waits are
computed after the step counter is incremented, and arrivals are recorded
at the pre-increment counter). -/
theorem runLoop_waits_pos (allCmds : List Command) (resp : EngineResp) :
    ∀ (cmds : List Command) (st : SimState),
      (∀ p ∈ st.arrival_times, p.2 ≤ st.current_step) →
      (∀ w ∈ st.wait_times, 1 ≤ w) →
      (∀ p ∈ (runLoop allCmds resp cmds st).arrival_times,
          p.2 ≤ (runLoop allCmds resp cmds st).current_step) ∧
        ∀ w ∈ (runLoop allCmds resp cmds st).wait_times, 1 ≤ w := by
  intro cmds
  induction cmds with
  | nil => intro st ha hw; exact ⟨ha, hw⟩
  | cons c rest ih =>
    intro st ha hw
    by_cases hs : st.stopped = true
    · rw [runLoop_stopped allCmds resp (c :: rest) st hs]
      exact ⟨ha, hw⟩
    · have hs' : st.stopped = false := by
        cases hstop : st.stopped
        · rfl
        · exact absurd hstop hs
      have hcons : runLoop allCmds resp (c :: rest) st =
          runLoop allCmds resp rest (execCmd allCmds resp st c) := rfl
      rw [hcons]
      cases c with
      | addVehicle v =>
        have he : execCmd allCmds resp st (Command.addVehicle v) =
            { st with
                arrival_times := (v.vehicleId, st.current_step) :: st.arrival_times } := by
          simp [execCmd, hs']
        rw [he]
        refine ih _ ?_ hw
        intro p hp
        rcases List.mem_cons.mp hp with rfl | hp
        · exact le_refl _
        · exact ha p hp
      | step =>
        cases hr : resp (st.current_step + 1) with
        | none =>
          have he : execCmd allCmds resp st Command.step =
              { st with current_step := st.current_step + 1, stopped := true } := by
            simp [execCmd, hs', hr]
          rw [he]
          refine ih _ ?_ hw
          intro p hp
          exact le_trans (ha p hp) (Nat.le_succ _)
        | some ids =>
          have he : execCmd allCmds resp st Command.step =
              ids.foldl (processDeparture allCmds)
                { st with current_step := st.current_step + 1 } := by
            simp [execCmd, hs', hr]
          rw [he]
          have hstrict : ∀ p ∈ ({ st with current_step := st.current_step + 1 }
              : SimState).arrival_times, p.2 <
              ({ st with current_step := st.current_step + 1 } : SimState).current_step := by
            intro p hp
            exact Nat.lt_succ_of_le (ha p hp)
          obtain ⟨ha', hw'⟩ := foldl_processDeparture_pos allCmds ids
            { st with current_step := st.current_step + 1 } hstrict hw
          exact ih _ (fun p hp => le_of_lt (ha' p hp)) hw'

/-- C10: every wait sample collected by `run_single_simulation` is at
least 1 — strictly stronger than the non-negativity the spec states.
The step counter is incremented before the departure report is read,
arrivals are recorded at the pre-increment value, and unmatched ids
contribute nothing. -/
theorem wait_samples_positive (cmds : List Command) (resp : EngineResp) (w : ℕ)
    (hw : w ∈ (runLoop cmds resp cmds initSimState).wait_times) : 1 ≤ w :=
  (runLoop_waits_pos cmds resp cmds initSimState
    (by intro p hp; simp [initSimState] at hp) (by intro x hx; simp [initSimState] at hx)).2
    w hw

/-- C10 witness: the single collected sample of a one-vehicle run is 1,
and the general bound applies to it. -/
theorem wait_samples_positive_witness :
    1 ∈ (runLoop [Command.addVehicle ⟨"a", Road.north, Road.east⟩, Command.step]
        (fun _ => some ["a"])
        [Command.addVehicle ⟨"a", Road.north, Road.east⟩, Command.step]
        initSimState).wait_times ∧ 1 ≤ 1 :=
  ⟨by decide, wait_samples_positive
    [Command.addVehicle ⟨"a", Road.north, Road.east⟩, Command.step]
    (fun _ => some ["a"]) 1 (by decide)⟩

/-- Value of the digit character of a digit. -/
theorem charVal_digitChar (d : ℕ) (h : d < 10) :
    charVal (Nat.digitChar d) = d := by
  interval_cases d <;> decide

/-- Appending one digit multiplies the value by ten and adds the digit. -/
theorem charsVal_append (l : List Char) (c : Char) :
    charsVal (l ++ [c]) = 10 * charsVal l + charVal c := by
  simp [charsVal, List.foldl_append]

/-- The decimal rendering round-trips, for any sufficient fuel. -/
theorem charsVal_natToCharsAux : ∀ (f n : ℕ), n < f →
    charsVal (natToCharsAux f n) = n := by
  intro f
  induction f with
  | zero => intro n h; omega
  | succ f ih =>
    intro n h
    simp only [natToCharsAux]
    by_cases h10 : n < 10
    · rw [if_pos h10]
      have := charVal_digitChar n h10
      simpa [charsVal] using this
    · have hdiv : n / 10 < n := Nat.div_lt_self (by omega) (by omega)
      rw [if_neg h10, charsVal_append, ih (n / 10) (by omega),
        charVal_digitChar _ (Nat.mod_lt _ (by omega))]
      omega

/-- The decimal rendering of a natural round-trips through its value. -/
theorem charsVal_natToChars (n : ℕ) : charsVal (natToChars n) = n :=
  charsVal_natToCharsAux (n + 1) n (Nat.lt_succ_self n)

/-- Two generated vehicle ids with the same counter value are the only way
to collide: equal ids force equal counter values (whatever the roads). -/
theorem mkVehicleId_count_inj (r1 r2 : Road) (n1 n2 : ℕ)
    (h : mkVehicleId r1 n1 = mkVehicleId r2 n2) : n1 = n2 := by
  have hd : ('v' :: '_' :: roadLetter r1 :: '_' :: natToChars n1) =
      ('v' :: '_' :: roadLetter r2 :: '_' :: natToChars n2) := by
    simpa [mkVehicleId] using congrArg String.data h
  have hpair : roadLetter r1 = roadLetter r2 ∧ natToChars n1 = natToChars n2 := by
    simpa using hd
  have := congrArg charsVal hpair.2
  rwa [charsVal_natToChars, charsVal_natToChars] at this

/-- Appending one freshly numbered `addVehicle` command preserves the
generator's id bookkeeping invariant. -/
theorem inv_snoc (cmds : List Command) (cnt : ℕ) (v : AddVehicleData)
    (hv : v.vehicleId = mkVehicleId v.startRoad (cnt + 1))
    (h : ∃ ps : List (AddVehicleData × ℕ), vehCmds cmds = ps.map Prod.fst ∧
      (∀ p ∈ ps, p.1.vehicleId = mkVehicleId p.1.startRoad p.2) ∧
      (ps.map Prod.snd).Pairwise (· < ·) ∧ ∀ p ∈ ps, p.2 ≤ cnt) :
    ∃ ps : List (AddVehicleData × ℕ),
      vehCmds (cmds ++ [Command.addVehicle v]) = ps.map Prod.fst ∧
      (∀ p ∈ ps, p.1.vehicleId = mkVehicleId p.1.startRoad p.2) ∧
      (ps.map Prod.snd).Pairwise (· < ·) ∧ ∀ p ∈ ps, p.2 ≤ cnt + 1 := by
  obtain ⟨ps, h1, h2, h3, h4⟩ := h
  have hveh : vehCmds (cmds ++ [Command.addVehicle v]) = vehCmds cmds ++ [v] := by
    simp [vehCmds, List.filterMap_append]
  refine ⟨ps ++ [(v, cnt + 1)], ?_, ?_, ?_, ?_⟩
  · rw [hveh, h1]; simp
  · intro p hp
    rcases List.mem_append.mp hp with hp | hp
    · exact h2 p hp
    · have hpv : p = (v, cnt + 1) := by simpa using hp
      rw [hpv]; exact hv
  · rw [List.map_append]
    refine List.pairwise_append.mpr ⟨h3, by simp, ?_⟩
    intro a ha b hb
    have hb' : b = cnt + 1 := by simpa using hb
    rcases List.mem_map.mp ha with ⟨p, hp, rfl⟩
    have := h4 p hp
    omega
  · intro p hp
    rcases List.mem_append.mp hp with hp | hp
    · exact le_trans (h4 p hp) (Nat.le_succ _)
    · have hpv : p = (v, cnt + 1) := by simpa using hp
      rw [hpv]

/-- One road-loop iteration either leaves the command list and counter
unchanged, or appends exactly one `addVehicle` originating at the looped
road, carrying the incremented global counter in its id. -/
theorem genRoad_cases (sc : Scenario) (s : ℕ) (st : GenState) (start : Road) :
    ((genRoad sc s st start).count = st.count ∧
      (genRoad sc s st start).commands = st.commands) ∨
    ∃ v : AddVehicleData, v.startRoad = start ∧
      v.vehicleId = mkVehicleId start (st.count + 1) ∧
      (genRoad sc s st start).count = st.count + 1 ∧
      (genRoad sc s st start).commands = st.commands ++ [Command.addVehicle v] := by
  by_cases h1 : (st.rng.next).1 < sc.prob_func s start
  · by_cases h2 : ((st.rng.next).2.next).1 < sc.left_bias
    · right
      exact ⟨⟨mkVehicleId start (st.count + 1), start, get_left_turn_target start⟩,
        rfl, rfl, by simp [genRoad, h1, h2], by simp [genRoad, h1, h2]⟩
    · right
      exact ⟨⟨mkVehicleId start (st.count + 1), start,
        (ROADS.filter fun r => r != start && r != get_left_turn_target start).getD
          (chooseIdx (((st.rng.next).2.next).2.next).1
            (ROADS.filter fun r => r != start && r != get_left_turn_target start).length)
          Road.north⟩,
        rfl, rfl, by simp [genRoad, h1, h2], by simp [genRoad, h1, h2]⟩
  · left
    constructor <;> simp [genRoad, h1]

/-- The road loop preserves the id bookkeeping invariant. -/
theorem genRoad_inv (sc : Scenario) (s : ℕ) (start : Road) (st : GenState)
    (h : ∃ ps : List (AddVehicleData × ℕ), vehCmds st.commands = ps.map Prod.fst ∧
      (∀ p ∈ ps, p.1.vehicleId = mkVehicleId p.1.startRoad p.2) ∧
      (ps.map Prod.snd).Pairwise (· < ·) ∧ ∀ p ∈ ps, p.2 ≤ st.count) :
    ∃ ps : List (AddVehicleData × ℕ),
      vehCmds (genRoad sc s st start).commands = ps.map Prod.fst ∧
      (∀ p ∈ ps, p.1.vehicleId = mkVehicleId p.1.startRoad p.2) ∧
      (ps.map Prod.snd).Pairwise (· < ·) ∧
      ∀ p ∈ ps, p.2 ≤ (genRoad sc s st start).count := by
  rcases genRoad_cases sc s st start with ⟨hc, hcmd⟩ | ⟨v, hs, hid, hc, hcmd⟩
  · rw [hc, hcmd]; exact h
  · rw [hc, hcmd]
    refine inv_snoc st.commands st.count v ?_ h
    rw [hs]
    exact hid

/-- The four-road fold preserves the id bookkeeping invariant. -/
theorem foldl_genRoad_inv (sc : Scenario) (s : ℕ) :
    ∀ (roads : List Road) (st : GenState),
      (∃ ps : List (AddVehicleData × ℕ), vehCmds st.commands = ps.map Prod.fst ∧
        (∀ p ∈ ps, p.1.vehicleId = mkVehicleId p.1.startRoad p.2) ∧
        (ps.map Prod.snd).Pairwise (· < ·) ∧ ∀ p ∈ ps, p.2 ≤ st.count) →
      ∃ ps : List (AddVehicleData × ℕ),
        vehCmds (roads.foldl (genRoad sc s) st).commands = ps.map Prod.fst ∧
        (∀ p ∈ ps, p.1.vehicleId = mkVehicleId p.1.startRoad p.2) ∧
        (ps.map Prod.snd).Pairwise (· < ·) ∧
        ∀ p ∈ ps, p.2 ≤ (roads.foldl (genRoad sc s) st).count := by
  intro roads
  induction roads with
  | nil => intro st h; exact h
  | cons r roads ih =>
    intro st h
    exact ih (genRoad sc s st r) (genRoad_inv sc s r st h)

/-- One step-loop iteration preserves the id bookkeeping invariant (the
trailing `step` command carries no vehicle). -/
theorem genStep_inv (sc : Scenario) (s : ℕ) (st : GenState)
    (h : ∃ ps : List (AddVehicleData × ℕ), vehCmds st.commands = ps.map Prod.fst ∧
      (∀ p ∈ ps, p.1.vehicleId = mkVehicleId p.1.startRoad p.2) ∧
      (ps.map Prod.snd).Pairwise (· < ·) ∧ ∀ p ∈ ps, p.2 ≤ st.count) :
    ∃ ps : List (AddVehicleData × ℕ),
      vehCmds (genStep sc s st).commands = ps.map Prod.fst ∧
      (∀ p ∈ ps, p.1.vehicleId = mkVehicleId p.1.startRoad p.2) ∧
      (ps.map Prod.snd).Pairwise (· < ·) ∧ ∀ p ∈ ps, p.2 ≤ (genStep sc s st).count := by
  obtain ⟨ps, h1, h2, h3, h4⟩ := foldl_genRoad_inv sc s ROADS st h
  refine ⟨ps, ?_, h2, h3, h4⟩
  have hveh : vehCmds (genStep sc s st).commands =
      vehCmds (ROADS.foldl (genRoad sc s) st).commands := by
    simp [genStep, vehCmds, List.filterMap_append]
  rw [hveh, h1]

/-- The outer step fold preserves the id bookkeeping invariant. -/
theorem foldl_genStep_inv (sc : Scenario) :
    ∀ (idxs : List ℕ) (st : GenState),
      (∃ ps : List (AddVehicleData × ℕ), vehCmds st.commands = ps.map Prod.fst ∧
        (∀ p ∈ ps, p.1.vehicleId = mkVehicleId p.1.startRoad p.2) ∧
        (ps.map Prod.snd).Pairwise (· < ·) ∧ ∀ p ∈ ps, p.2 ≤ st.count) →
      ∃ ps : List (AddVehicleData × ℕ),
        vehCmds (idxs.foldl (fun st s => genStep sc s st) st).commands = ps.map Prod.fst ∧
        (∀ p ∈ ps, p.1.vehicleId = mkVehicleId p.1.startRoad p.2) ∧
        (ps.map Prod.snd).Pairwise (· < ·) ∧
        ∀ p ∈ ps, p.2 ≤ (idxs.foldl (fun st s => genStep sc s st) st).count := by
  intro idxs
  induction idxs with
  | nil => intro st h; exact h
  | cons s idxs ih =>
    intro st h
    exact ih (genStep sc s st) (genStep_inv sc s st h)

/-- C6 (amended): every `addVehicle` command carries an id of the form
`v_{letter of its origin road}_{k}` where the `k` values are drawn from
the single global vehicle counter, strictly increasing along the
sequence; consequently all vehicle ids in one generated sequence are
pairwise distinct.  (The claim's "separate counter per road" does not
hold — see the counterexample — the counter is shared by all roads.) -/
theorem vehicle_ids_unique (mt : MT) (sc : Scenario) (seed : Option ℕ) (g0 : RNG) :
    (∃ ps : List (AddVehicleData × ℕ),
        vehCmds (create_command_list mt sc seed g0).1.1 = ps.map Prod.fst ∧
        (∀ p ∈ ps, p.1.vehicleId = mkVehicleId p.1.startRoad p.2) ∧
        (ps.map Prod.snd).Pairwise (· < ·)) ∧
      ((vehCmds (create_command_list mt sc seed g0).1.1).map
        AddVehicleData.vehicleId).Pairwise (· ≠ ·) := by
  obtain ⟨g, hg⟩ : ∃ g : RNG, (create_command_list mt sc seed g0).1.1 =
      ((List.range sc.steps).foldl (fun st s => genStep sc s st)
        ⟨[], 0, g⟩).commands := by
    cases seed with
    | none => exact ⟨seedRNG mt SEED, rfl⟩
    | some s => exact ⟨seedRNG mt s, rfl⟩
  rw [hg]
  obtain ⟨ps, h1, h2, h3, _⟩ := foldl_genStep_inv sc (List.range sc.steps)
    ⟨[], 0, g⟩ ⟨[], by simp [vehCmds], by simp, by simp, by simp⟩
  refine ⟨⟨ps, h1, h2, h3⟩, ?_⟩
  have hps : ps.Pairwise (fun p q => p.2 < q.2) := List.pairwise_map.mp h3
  have hne : ps.Pairwise (fun p q => p.1.vehicleId ≠ q.1.vehicleId) := by
    refine hps.imp_of_mem ?_
    intro a b ha hb hlt heq
    have hA := h2 a ha
    have hB := h2 b hb
    rw [hA, hB] at heq
    exact absurd (mkVehicleId_count_inj _ _ _ _ heq) (Nat.ne_of_lt hlt)
  rw [h1, List.map_map]
  exact List.pairwise_map.mpr hne

/-- C6 counterexample: a one-step scenario with certain arrivals and
certain left turns (every draw of the stream is 0).  The generated ids
are `v_n_1, v_e_2, v_s_3, v_w_4`: the numeric part continues across
roads, so the per-road-counter scheme asserted by the claim (which would
require `v_e_1` for the first east vehicle) is violated. -/
theorem per_road_counter_refuted :
    ((vehCmds (create_command_list (fun _ _ => 0) ⟨"cx", 1, fun _ _ => 1, 1⟩ none
        ⟨fun _ => 0, 0⟩).1.1).map AddVehicleData.vehicleId =
      ["v_n_1", "v_e_2", "v_s_3", "v_w_4"]) ∧
      perRoadCheck (create_command_list (fun _ _ => 0) ⟨"cx", 1, fun _ _ => 1, 1⟩ none
        ⟨fun _ => 0, 0⟩).1.1 (fun _ => 0) = false := by
  constructor
  · decide
  · decide

/-- The four-road fold appends at most one (non-`step`) command per road. -/
theorem foldl_genRoad_commands (sc : Scenario) (s : ℕ) :
    ∀ (roads : List Road) (st : GenState),
      ∃ t : List Command, (roads.foldl (genRoad sc s) st).commands = st.commands ++ t ∧
        t.length ≤ roads.length ∧ t.countP isStepCmd = 0 := by
  intro roads
  induction roads with
  | nil => intro st; exact ⟨[], by simp, by simp, rfl⟩
  | cons r roads ih =>
    intro st
    obtain ⟨t, h1, h2, h3⟩ := ih (genRoad sc s st r)
    simp only [List.foldl_cons]
    rcases genRoad_cases sc s st r with ⟨_, hcmd⟩ | ⟨v, _, _, _, hcmd⟩
    · rw [h1, hcmd]
      exact ⟨t, rfl, Nat.le_succ_of_le h2, h3⟩
    · rw [h1, hcmd]
      refine ⟨Command.addVehicle v :: t, by simp, by simp; omega, ?_⟩
      simp [List.countP_cons, isStepCmd, h3]

/-- One outer-loop iteration appends a block of 1 to 5 commands holding
exactly one `step`, which is the block's last command. -/
theorem genStep_commands (sc : Scenario) (s : ℕ) (st : GenState) :
    ∃ t : List Command, (genStep sc s st).commands = st.commands ++ t ∧
      1 ≤ t.length ∧ t.length ≤ 5 ∧ t.countP isStepCmd = 1 ∧
      t.getLast? = some Command.step := by
  obtain ⟨t, h1, h2, h3⟩ := foldl_genRoad_commands sc s ROADS st
  have hR : ROADS.length = 4 := rfl
  refine ⟨t ++ [Command.step], ?_, ?_, ?_, ?_, ?_⟩
  · simp [genStep, h1]
  · simp
  · simp only [List.length_append, List.length_cons, List.length_nil]
    omega
  · simp [List.countP_append, h3, isStepCmd]
  · exact List.getLast?_concat t

/-- The outer step fold appends, per processed step index, one block of 1
to 5 commands with exactly one `step` each, the final one ending in a
`step` command. -/
theorem foldl_genStep_commands (sc : Scenario) :
    ∀ (idxs : List ℕ) (st : GenState),
      ∃ t : List Command,
        (idxs.foldl (fun st s => genStep sc s st) st).commands = st.commands ++ t ∧
        t.countP isStepCmd = idxs.length ∧
        idxs.length ≤ t.length ∧ t.length ≤ 5 * idxs.length ∧
        (idxs ≠ [] → t.getLast? = some Command.step) := by
  intro idxs
  induction idxs with
  | nil =>
    intro st
    exact ⟨[], by simp, by simp, by simp, by simp, by simp⟩
  | cons s idxs ih =>
    intro st
    obtain ⟨t1, e1, c1, l1, u1, g1⟩ := genStep_commands sc s st
    obtain ⟨t2, e2, c2, l2, u2, g2⟩ := ih (genStep sc s st)
    simp only [List.foldl_cons]
    refine ⟨t1 ++ t2, ?_, ?_, ?_, ?_, ?_⟩
    · rw [e2, e1, List.append_assoc]
    · simp only [List.countP_append, c1, c2, List.length_cons]
      omega
    · simp only [List.length_append, List.length_cons]
      omega
    · simp only [List.length_append, List.length_cons]
      omega
    · intro _
      by_cases hst : idxs = []
      · have ht2 : t2 = [] := by
          subst hst
          simp only [List.length_nil, Nat.mul_zero, Nat.le_zero] at u2
          exact List.length_eq_zero.mp u2
        rw [ht2, List.append_nil]
        exact g1
      · have h2l := g2 hst
        rw [List.getLast?_append, h2l]
        rfl

/-- C9: the generated command sequence has exactly `steps` `step`
commands, total length between `steps` and `5 * steps` (each logical
step contributes one `step` plus at most four `addVehicle` commands, one
per road), and when `steps ≥ 1` its final command is a `step`. -/
theorem command_counts (mt : MT) (sc : Scenario) (seed : Option ℕ) (g0 : RNG) :
    ((create_command_list mt sc seed g0).1.1.countP isStepCmd = sc.steps) ∧
      sc.steps ≤ (create_command_list mt sc seed g0).1.1.length ∧
      (create_command_list mt sc seed g0).1.1.length ≤ 5 * sc.steps ∧
      (1 ≤ sc.steps →
        (create_command_list mt sc seed g0).1.1.getLast? = some Command.step) := by
  obtain ⟨g, hg⟩ : ∃ g : RNG, (create_command_list mt sc seed g0).1.1 =
      ((List.range sc.steps).foldl (fun st s => genStep sc s st)
        ⟨[], 0, g⟩).commands := by
    cases seed with
    | none => exact ⟨seedRNG mt SEED, rfl⟩
    | some s => exact ⟨seedRNG mt s, rfl⟩
  rw [hg]
  obtain ⟨t, e, c, l, u, glast⟩ := foldl_genStep_commands sc (List.range sc.steps) ⟨[], 0, g⟩
  have he : ((List.range sc.steps).foldl (fun st s => genStep sc s st)
      ⟨[], 0, g⟩).commands = t := by simpa using e
  rw [he]
  refine ⟨by simpa using c, by simpa using l, by simpa using u, ?_⟩
  intro hs
  refine glast ?_
  simp only [ne_eq, List.range_eq_nil]
  omega

/-- C9 witness: a one-step scenario with zero arrival probability
generates the single command list `[step]`, whose last command is `step`. -/
theorem command_counts_witness :
    (1 ≤ (⟨"w", 1, fun _ _ => 0, 0⟩ : Scenario).steps) ∧
      (create_command_list (fun _ _ => 0) ⟨"w", 1, fun _ _ => 0, 0⟩ none
        ⟨fun _ => 0, 0⟩).1.1.getLast? = some Command.step :=
  ⟨le_refl 1, (command_counts (fun _ _ => 0) ⟨"w", 1, fun _ _ => 0, 0⟩ none
    ⟨fun _ => 0, 0⟩).2.2.2 (le_refl 1)⟩
